import Mathlib

/-!
# Verification of the cosmic-files desktop example (`src/examples/desktop.rs`)

A shallow embedding of the desktop-shell coordinator found in
`src/examples/desktop.rs`: the output/surface registry, the debounce filter of
the file-watcher subscription, the notify-event classifier/patcher, the watch
set reconciliation (`update_watcher`), and the rescan plumbing.

Paths are modelled as component lists (Rust's `Path::starts_with` compares
path components, which `List.isPrefixOf` mirrors).  `HashMap` state is
modelled as association lists with first-binding semantics, `HashSet` as a
duplicate-free list.  The filesystem (`fs::metadata`) is an explicit oracle
argument.  The iced `Command` values actually issued by the handlers are
returned as an explicit list, and direct `watch`/`unwatch` calls against the
notify session are returned as a second list.
-/

namespace Desktop

/-- A filesystem path, as its list of components. -/
abbrev FsPath := List String

/-- Rust's `child.starts_with(base)` on `Path` (component-wise prefix). -/
def pathStartsWith (child base : FsPath) : Bool :=
  base.isPrefixOf child

/-! ## The `notify` event model

Mirrors `notify::EventKind` and its nested kinds as used by `desktop.rs`.
Payload enums whose values the code never inspects (`AccessKind`,
`CreateKind`, `RemoveKind`, `DataChange`, `RenameMode`) are kept as small
stand-in enums so that the match structure of the code is preserved. -/

/-- Stand-in for the payloads the code never inspects (`AccessKind`,
`CreateKind`, ...): `notify` gives each an `Any`/`Other` shape. -/
inductive SubKind
  | any
  | other
  deriving DecidableEq, Repr

/-- Mirror of `notify::event::MetadataKind`. -/
inductive MetadataKind
  | any
  | accessTime
  | writeTime
  | permissions
  | ownership
  | extended
  | other
  deriving DecidableEq, Repr

/-- Mirror of `notify::event::ModifyKind`. -/
inductive ModifyKind
  | any
  | data (change : SubKind)
  | metadata (kind : MetadataKind)
  | name (mode : SubKind)
  | other
  deriving DecidableEq, Repr

/-- Mirror of `notify::EventKind`. -/
inductive EventKind
  | any
  | access (kind : SubKind)
  | create (kind : SubKind)
  | modify (kind : ModifyKind)
  | remove (kind : SubKind)
  | other
  deriving DecidableEq, Repr

/-- One debounced event: the fields of `notify::Event` that `desktop.rs`
reads (`event.kind`, `event.paths`); `DebouncedEvent` dereferences to it. -/
structure Event where
  kind : EventKind
  paths : List FsPath
  deriving DecidableEq, Repr

/-! ## The debouncer callback filter (subscription, lines 463–503) -/

/-- The `events.retain(|event| ...)` predicate of the debouncer callback:
`Access(_)` is dropped; `Modify(Metadata(e))` is dropped when
`e != Any && e != WriteTime`; everything else is kept. -/
def retainEvent (event : Event) : Bool :=
  match event.kind with
  | .access _ => false
  | .modify (.metadata e) =>
      if e ≠ MetadataKind.any ∧ e ≠ MetadataKind.writeTime then false else true
  | _ => true

/-- The batch left after `events.retain(...)` in the debouncer callback. -/
def debounceFilter (events : List Event) : List Event :=
  events.filter retainEvent

/-- What the debouncer callback sends downstream: the filtered batch as one
`Message::NotifyEvents`, or nothing when the filtered batch is empty
(`if !events.is_empty()`). -/
def debounceSend (events : List Event) : Option (List Event) :=
  let events := debounceFilter events
  if events.isEmpty then none else some events

/-! ## Data model of the application state

`Tab`, `Item` and `ItemMetadata` live in the `cosmic_files` library, outside
`src/examples/desktop.rs`; their shapes are modelled from the spec's data
model (§3) restricted to the fields `desktop.rs` touches. -/

/-- An opaque token standing for a `std::fs::Metadata` value (the code never
inspects it, only stores and replaces it wholesale). -/
structure FsMetadata where
  stamp : Nat
  deriving DecidableEq, Repr

/-- Modelled from the spec: `ItemMetadata` is "a tagged variant depending on
whether the backing entity is a regular filesystem path or a synthetic/virtual
entry".  The `path` variant carries the `fs::Metadata` the code replaces plus
the remaining fields it matches with `..` (collapsed into `rest`). -/
inductive ItemMetadata
  | path (metadata : FsMetadata) (rest : Nat)
  | synthetic (rest : Nat)
  deriving DecidableEq, Repr

/-- Modelled from the spec: one entry of the displayed listing, restricted to
the fields `desktop.rs` reads or writes (`path_opt`, `metadata`,
`thumbnail_opt`). -/
structure Item where
  path_opt : Option FsPath
  metadata : ItemMetadata
  thumbnail_opt : Option Nat
  deriving DecidableEq, Repr

/-- The tab's location.  The code matches `Location::Path(path)`; the
library's other (non-path-backed) variants are collapsed into `other`. -/
inductive Location
  | path (p : FsPath)
  | other
  deriving DecidableEq, Repr

/-- Wayland output handle (opaque identity). -/
abbrev WlOutput := Nat

/-- Surface identifier; `SurfaceId::unique()` is a global fresh counter,
modelled by threading `next_surface_id` through the state. -/
abbrev SurfaceId := Nat

/-! ### Association-list model of `HashMap`

First-binding semantics: lookup finds the first binding of the key, removal
drops it, insertion replaces it (returning the old value, as Rust's
`HashMap::insert` does). -/

/-- Lookup of the first binding of `k`. -/
def alLookup [DecidableEq α] (m : List (α × β)) (k : α) : Option β :=
  match m with
  | [] => none
  | kv :: rest => if kv.1 = k then some kv.2 else alLookup rest k

/-- Remove the first binding of `k` (a no-op when absent), as
`HashMap::remove` on a map with unique keys. -/
def alRemove [DecidableEq α] (m : List (α × β)) (k : α) : List (α × β) :=
  match m with
  | [] => []
  | kv :: rest => if kv.1 = k then rest else kv :: alRemove rest k

/-- Insert `k ↦ v`, returning the previous value of `k` (if any), as
`HashMap::insert`. -/
def alInsert [DecidableEq α] (m : List (α × β)) (k : α) (v : β) :
    Option β × List (α × β) :=
  match alLookup m k with
  | some old => (some old, (k, v) :: alRemove m k)
  | none => (none, (k, v) :: m)

/-- The mutable state of `App` that the claims are about.  The `Tab` fields
the code touches (`tab.location`, the item collection) are inlined; the watch
session handle is represented by its watched-path set (the `HashSet<PathBuf>`
paired with the debouncer in `watcher_opt`). -/
structure App where
  surface_ids : List (WlOutput × SurfaceId)
  surface_names : List (SurfaceId × String)
  location : Location
  items_opt : Option (List Item)
  watcher_opt : Option (List FsPath)
  next_surface_id : SurfaceId
  modifiers : Nat
  deriving DecidableEq, Repr

/-- The iced commands the handlers return (only those the claims observe). -/
inductive Cmd
  | get_layer_surface (id : SurfaceId) (output : WlOutput)
  | destroy_layer_surface (id : SurfaceId)
  | rescan (location : Location)
  deriving DecidableEq, Repr

/-- A direct call against the watch session. -/
inductive WatchCall
  | watch (p : FsPath)
  | unwatch (p : FsPath)
  deriving DecidableEq, Repr

/-- The filesystem-metadata oracle standing for `fs::metadata` (errors carry
an opaque code). -/
abbrev FsOracle := FsPath → Except Nat FsMetadata

/-- Result of one handler invocation: the new state, the iced commands it
returned, and the watch/unwatch calls it made directly. -/
structure StepResult where
  app : App
  cmds : List Cmd
  watch_calls : List WatchCall
  deriving DecidableEq, Repr

/-! ## The handlers of `desktop.rs` -/

/-- `App::rescan_tab` (lines 114–129): spawns a scan of the current location
and feeds the result back as `Message::TabRescan`; modelled by the command it
issues, tagged with the location captured at issue time. -/
def rescan_tab (app : App) : List Cmd :=
  [Cmd.rescan app.location]

/-- The target watch set derived from the location in `App::update_watcher`:
a singleton for `Location::Path`, empty otherwise. -/
def newWatchPaths (location : Location) : List FsPath :=
  match location with
  | .path path => [path]
  | .other => []

/-- `App::update_watcher` (lines 131–175): when a session is held, unwatch
every old path not in the new target set, watch every new path not in the old
set, and store the new set.  Failures of individual calls are logged only and
do not change which calls are made. -/
def update_watcher (app : App) : App × List WatchCall :=
  match app.watcher_opt with
  | none => (app, [])
  | some old_paths =>
      let new_paths := newWatchPaths app.location
      let unwatch_calls :=
        (old_paths.filter (fun p => !decide (p ∈ new_paths))).map WatchCall.unwatch
      let watch_calls :=
        (new_paths.filter (fun p => !decide (p ∈ old_paths))).map WatchCall.watch
      ({ app with watcher_opt := some new_paths }, unwatch_calls ++ watch_calls)

/-- The in-place metadata patch of the `NotifyEvents` handler (lines
328–349): for an item whose `path_opt` equals the event path, re-read
`fs::metadata`; on success replace the metadata of an `ItemMetadata::Path`
item (leaving every other variant untouched), on failure log and leave the
item unchanged. -/
def patchItem (fs : FsOracle) (event_path : FsPath) (item : Item) : Item :=
  if item.path_opt = some event_path then
    match fs event_path with
    | .ok new_metadata =>
        match item.metadata with
        | .path _ rest => { item with metadata := ItemMetadata.path new_metadata rest }
        | .synthetic _ => item
    | .error _ => item
  else item

/-- The inner `for event_path in event.paths` loop of the `NotifyEvents`
handler: paths outside the location are skipped; for a
`Modify(Metadata(_)) | Modify(Data(_))` event each matching path patches the
matching items in place; any other kind sets `contains_change` and `break`s
out of this event's remaining paths. -/
def classifyEventPaths (fs : FsOracle) (loc : FsPath) (kind : EventKind)
    (paths : List FsPath) (items_opt : Option (List Item)) :
    Option (List Item) × Bool :=
  match paths with
  | [] => (items_opt, false)
  | event_path :: rest =>
    if pathStartsWith event_path loc then
      match kind with
      | .modify (.metadata _) | .modify (.data _) =>
          classifyEventPaths fs loc kind rest
            (items_opt.map (fun items => items.map (patchItem fs event_path)))
      | _ => (items_opt, true)
    else
      classifyEventPaths fs loc kind rest items_opt

/-- The outer `for event in events` loop of the `NotifyEvents` handler:
every event of the batch is processed (a `contains_change` set by one event
does not stop later events from being classified and patching). -/
def classifyBatch (fs : FsOracle) (loc : FsPath) (events : List Event)
    (items_opt : Option (List Item)) : Option (List Item) × Bool :=
  match events with
  | [] => (items_opt, false)
  | event :: rest =>
      let r := classifyEventPaths fs loc event.kind event.paths items_opt
      let r' := classifyBatch fs loc rest r.1
      (r'.1, r.2 || r'.2)

/-- An output lifecycle notification (`OutputEvent`), with the payload fields
the code reads: `Created(Option<OutputInfo>)` carries an optional info whose
`name` is optional in turn; `InfoUpdate` carries an info the code ignores. -/
inductive OutputEv
  | created (info_opt : Option (Option String))
  | removed
  | info_update (info : Option String)
  deriving DecidableEq, Repr

/-- The messages of `desktop.rs` that the claims concern.  `TabMessage` is
not modelled: it delegates to the library's `Tab::update`, outside this
file's source.  `NotifyWatcher` carries whether the wrapper still holds the
debouncer (`watcher_opt.take()`); a clone carries `None`. -/
inductive Msg
  | layer_event_focused (surface : SurfaceId)
  | output_event (ev : OutputEv) (output : WlOutput)
  | modifiers (m : Nat)
  | notify_events (events : List Event)
  | notify_watcher (has_watcher : Bool)
  | tab_rescan (items : List Item)
  deriving DecidableEq, Repr

/-- `App::update` (lines 232–418), restricted to the modelled messages. -/
def update (fs : FsOracle) (app : App) (msg : Msg) : StepResult :=
  match msg with
  | .output_event ev output =>
    match ev with
    | .created info_opt =>
        let surface_id := app.next_surface_id
        let ins := alInsert app.surface_ids output surface_id
        -- a `Some(old_surface_id)` result is only logged (`//TODO: remove old surface?`)
        let surface_names :=
          match info_opt with
          | some (some name) => (alInsert app.surface_names surface_id name).2
          | _ => app.surface_names
        { app := { app with
                     surface_ids := ins.2
                     surface_names := surface_names
                     next_surface_id := surface_id + 1 },
          cmds := [Cmd.get_layer_surface surface_id output],
          watch_calls := [] }
    | .removed =>
        match alLookup app.surface_ids output with
        | some surface_id =>
            { app := { app with
                         surface_ids := alRemove app.surface_ids output
                         surface_names := alRemove app.surface_names surface_id },
              cmds := [Cmd.destroy_layer_surface surface_id],
              watch_calls := [] }
        | none => { app := app, cmds := [], watch_calls := [] }
    | .info_update _ =>
        -- `OutputEvent::InfoUpdate(_output_info)` only logs
        { app := app, cmds := [], watch_calls := [] }
  | .layer_event_focused _ =>
      { app := app, cmds := [], watch_calls := [] }
  | .modifiers m =>
      { app := { app with modifiers := m }, cmds := [], watch_calls := [] }
  | .notify_events events =>
    match app.location with
    | .path path =>
        let r := classifyBatch fs path events app.items_opt
        let app := { app with items_opt := r.1 }
        { app := app,
          cmds := if r.2 then rescan_tab app else [],
          watch_calls := [] }
    | .other => { app := app, cmds := [], watch_calls := [] }
  | .notify_watcher has_watcher =>
    if has_watcher then
      let app := { app with watcher_opt := some [] }
      let r := update_watcher app
      { app := r.1, cmds := [], watch_calls := r.2 }
    else
      { app := app, cmds := [], watch_calls := [] }
  | .tab_rescan items =>
      -- `self.tab.set_items(items)`; modelled from the spec: a rescan result
      -- "replaces the Item collection wholesale"
      { app := { app with items_opt := some items }, cmds := [], watch_calls := [] }

/-- `App::init` (lines 201–229): builds the initial state (location from the
desktop directory, falling back to the home directory; no surfaces, no
watcher), then batches `update_watcher` (a no-op while no session is held)
with the first `rescan_tab`. -/
def init (desktop_dir_opt : Option FsPath) (home_dir : FsPath) : StepResult :=
  let location :=
    match desktop_dir_opt with
    | some path => Location.path path
    | none => Location.path home_dir
  let app : App :=
    { surface_ids := []
      surface_names := []
      location := location
      items_opt := none
      watcher_opt := none
      next_surface_id := 0
      modifiers := 0 }
  let r := update_watcher app
  { app := r.1, cmds := rescan_tab r.1, watch_calls := r.2 }

/-! ## Surface accounting over a run of output notifications -/

/-- Effect of one issued command on the set of live layer surfaces:
`get_layer_surface` creates one, `destroy_layer_surface` destroys one. -/
def applyCmdLive (live : List SurfaceId) (cmd : Cmd) : List SurfaceId :=
  match cmd with
  | .get_layer_surface id _ => live ++ [id]
  | .destroy_layer_surface id => live.erase id
  | .rescan _ => live

/-- Fold of `applyCmdLive` over a command list. -/
def applyCmdsLive (live : List SurfaceId) : List Cmd → List SurfaceId
  | [] => live
  | cmd :: rest => applyCmdsLive (applyCmdLive live cmd) rest

/-- The surfaces alive after executing a command list from nothing. -/
def liveSurfaces (cmds : List Cmd) : List SurfaceId :=
  applyCmdsLive [] cmds

/-- Deliver a list of output notifications to `App::update` in order,
collecting all issued commands. -/
def runOutputEvents (fs : FsOracle) (app : App) :
    List (OutputEv × WlOutput) → App × List Cmd
  | [] => (app, [])
  | e :: rest =>
      let r := update fs app (.output_event e.1 e.2)
      let r2 := runOutputEvents fs r.app rest
      (r2.1, r.cmds ++ r2.2)

/-- Ground truth of the protocol: the effect of one notification on the set
of currently-attached outputs (an attach of an attached output leaves it
attached once; a detach of an unknown output is a no-op). -/
def attachStep (att : List WlOutput) (e : OutputEv × WlOutput) : List WlOutput :=
  match e.1 with
  | .created _ => if e.2 ∈ att then att else att ++ [e.2]
  | .removed => att.erase e.2
  | .info_update _ => att

/-- Fold of `attachStep` over a notification list. -/
def attachedFrom (att : List WlOutput) : List (OutputEv × WlOutput) → List WlOutput
  | [] => att
  | e :: rest => attachedFrom (attachStep att e) rest

/-- The outputs attached after a notification sequence, starting detached. -/
def attachedOutputs (events : List (OutputEv × WlOutput)) : List WlOutput :=
  attachedFrom [] events

/-- The notification sequence never attaches an output the registry already
holds a surface for (checked against the evolving state). -/
def noDupAttach (fs : FsOracle) (app : App) : List (OutputEv × WlOutput) → Bool
  | [] => true
  | e :: rest =>
      (match e.1 with
       | .created _ => (alLookup app.surface_ids e.2).isNone
       | _ => true)
      && noDupAttach fs (update fs app (.output_event e.1 e.2)).app rest

/-! ## Helper lemmas -/

theorem retainEvent_true_iff (e : Event) :
    retainEvent e = true ↔
      (∀ a, e.kind ≠ EventKind.access a) ∧
      (∀ k, e.kind = EventKind.modify (ModifyKind.metadata k) →
        k = MetadataKind.any ∨ k = MetadataKind.writeTime) := by
  obtain ⟨kind, paths⟩ := e
  cases kind with
  | access a => simp [retainEvent]
  | modify mk =>
      cases mk with
      | metadata k => cases k <;> simp [retainEvent]
      | _ => simp [retainEvent]
  | _ => simp [retainEvent]

/-! ## C6 -/

/-- C6: the batch forwarded by the debounce callback contains exactly the
events of the raw batch that are neither access events nor metadata-change
events of a class other than `Any` or `WriteTime`; a batch that is empty
after this filtering is never sent downstream. -/
theorem c6_debounce_filter_exact (events out : List Event) (e : Event) :
    (e ∈ debounceFilter events ↔
      e ∈ events ∧ (∀ a, e.kind ≠ EventKind.access a) ∧
        (∀ k, e.kind = EventKind.modify (ModifyKind.metadata k) →
          k = MetadataKind.any ∨ k = MetadataKind.writeTime)) ∧
    (debounceSend events = some out → out ≠ []) := by
  constructor
  · rw [debounceFilter, List.mem_filter, retainEvent_true_iff]
  · intro h
    simp only [debounceSend] at h
    split at h
    · exact absurd h (by simp)
    · next hne =>
        cases h
        intro hnil
        rw [hnil] at hne
        exact hne rfl

/-- Witness for C6 at a concrete batch: the create event survives the filter
while the access event is dropped, and the sent batch is non-empty. -/
theorem c6_witness :
    (Event.mk (EventKind.create SubKind.any) [["a"]] ∈
      debounceFilter [⟨EventKind.access SubKind.any, [["a"]]⟩,
                      ⟨EventKind.create SubKind.any, [["a"]]⟩]) ∧
    ([⟨EventKind.create SubKind.any, [["a"]]⟩] : List Event) ≠ [] := by
  constructor
  · exact (c6_debounce_filter_exact
      [⟨EventKind.access SubKind.any, [["a"]]⟩, ⟨EventKind.create SubKind.any, [["a"]]⟩]
      [] ⟨EventKind.create SubKind.any, [["a"]]⟩).1.mpr
      ⟨by decide, by simp, by simp⟩
  · exact (c6_debounce_filter_exact
      [⟨EventKind.access SubKind.any, [["a"]]⟩, ⟨EventKind.create SubKind.any, [["a"]]⟩]
      [⟨EventKind.create SubKind.any, [["a"]]⟩]
      ⟨EventKind.create SubKind.any, [["a"]]⟩).2 (by decide)

/-! ## C7 -/

/-- C7: an in-place metadata patch re-reads the filesystem metadata of the
event path; when that read fails the failure is only logged and the item —
in particular its existing metadata — is left entirely unchanged. -/
theorem c7_patch_read_failure_noop (fs : FsOracle) (event_path : FsPath)
    (item : Item) (code : Nat) (herr : fs event_path = Except.error code) :
    patchItem fs event_path item = item := by
  unfold patchItem
  split
  · rw [herr]
  · rfl

/-- Witness for C7: a failing metadata read leaves a matching path-backed
item untouched. -/
theorem c7_witness :
    patchItem (fun _ => Except.error 7) ["tmp", "a"]
        ⟨some ["tmp", "a"], ItemMetadata.path ⟨0⟩ 0, none⟩
      = ⟨some ["tmp", "a"], ItemMetadata.path ⟨0⟩ 0, none⟩ :=
  c7_patch_read_failure_noop (fun _ => Except.error 7) ["tmp", "a"]
    ⟨some ["tmp", "a"], ItemMetadata.path ⟨0⟩ 0, none⟩ 7 rfl

/-! ## C10 -/

/-- C10: an in-place metadata patch replaces only the metadata field of a
path-backed item whose `path_opt` equals the event path (the re-read value on
success, the old value on failure); an item with synthetic (non-path-backed)
metadata is left entirely unchanged even when its path matches, and no other
field of any item is modified. -/
theorem c10_patch_only_path_metadata (fs : FsOracle) (event_path : FsPath)
    (popt : Option FsPath) (m : FsMetadata) (r : Nat) (t : Option Nat) :
    patchItem fs event_path ⟨popt, ItemMetadata.synthetic r, t⟩
        = ⟨popt, ItemMetadata.synthetic r, t⟩ ∧
    patchItem fs event_path ⟨popt, ItemMetadata.path m r, t⟩
        = ⟨popt,
            ItemMetadata.path
              (if popt = some event_path then
                 match fs event_path with
                 | .ok new_metadata => new_metadata
                 | .error _ => m
               else m) r, t⟩ := by
  constructor
  · unfold patchItem
    split
    · cases fs event_path <;> rfl
    · rfl
  · unfold patchItem
    by_cases hp : popt = some event_path
    · simp only [hp, if_pos rfl]
      cases fs event_path <;> rfl
    · simp only [if_neg hp]

/-! ## C1 -/

/-- C1 counterexample: with the displayed location `b` and an (empty) item
collection, delivering a `TabRescan` result that was issued for the different
location `a` is not discarded — it replaces the item collection. -/
theorem c1_counterexample :
    let fs : FsOracle := fun _ => Except.error 0
    let locA : Location := Location.path ["a"]
    let scanA : List Item := [⟨some ["a", "f"], ItemMetadata.synthetic 0, none⟩]
    let appB : App := ⟨[], [], Location.path ["b"], some [], none, 0, 0⟩
    locA ≠ appB.location ∧
    (update fs appB (Msg.tab_rescan scanA)).app.items_opt ≠ appB.items_opt ∧
    (update fs appB (Msg.tab_rescan scanA)).app.items_opt = some scanA := by
  decide

/-- C1 (amended): the `TabRescan` handler applies every delivered rescan
result unconditionally — `set_items` replaces the item collection with the
delivered items regardless of which location the rescan was issued for, and
nothing else in the state changes. -/
theorem c1_tab_rescan_unconditional (fs : FsOracle) (app : App) (items : List Item) :
    update fs app (Msg.tab_rescan items) =
      ⟨{ app with items_opt := some items }, [], []⟩ := rfl

/-! ## C9 -/

/-- C9 counterexample: an `InfoUpdate` carrying the new name `new` for a
registered output leaves the stored surface name `old` unchanged — the
handler only logs. -/
theorem c9_counterexample :
    let fs : FsOracle := fun _ => Except.error 0
    let app : App := ⟨[(0, 7)], [(7, "old")], Location.path ["h"], none, none, 8, 0⟩
    (update fs app (Msg.output_event (OutputEv.info_update (some "new")) 0)).app
        = app ∧
    alLookup (update fs app
        (Msg.output_event (OutputEv.info_update (some "new")) 0)).app.surface_names 7
        = some "old" := by
  decide

/-- C9 (amended): an output-info-updated notification is logged and otherwise
ignored: neither the stored surface name nor the output-to-surface mapping
(nor anything else) changes, and no command is issued. -/
theorem c9_info_update_ignored (fs : FsOracle) (app : App) (info : Option String)
    (output : WlOutput) :
    update fs app (Msg.output_event (OutputEv.info_update info) output)
      = ⟨app, [], []⟩ := rfl

/-! ## C8 -/

/-- C8 counterexample: on the watch-session-ready message the handler adopts
the session and reconciles the watch set, but returns no command at all — in
particular it does not issue a rescan. -/
theorem c8_counterexample :
    let fs : FsOracle := fun _ => Except.error 0
    let app : App := ⟨[], [], Location.path ["home"], none, none, 0, 0⟩
    (update fs app (Msg.notify_watcher true)).cmds = [] ∧
    (update fs app (Msg.notify_watcher true)).app.watcher_opt = some [["home"]] := by
  decide

/-- C8 (amended): on `NotifyWatcher` the loop adopts the session and
immediately reconciles the watch set against the current directory location
(watching exactly that path), but issues no rescan command; the first rescan
is instead issued by `init`, before the session is ready. -/
theorem c8_adopt_reconcile_no_rescan (fs : FsOracle) (app : App) (p : FsPath)
    (hloc : app.location = Location.path p) :
    (update fs app (Msg.notify_watcher true)).app.watcher_opt = some [p] ∧
    (update fs app (Msg.notify_watcher true)).watch_calls = [WatchCall.watch p] ∧
    (update fs app (Msg.notify_watcher true)).cmds = [] ∧
    ∀ desktop_dir_opt home_dir,
      (init desktop_dir_opt home_dir).cmds =
        [Cmd.rescan (init desktop_dir_opt home_dir).app.location] := by
  refine ⟨?_, ?_, ?_, ?_⟩
  · simp [update, update_watcher, newWatchPaths, hloc]
  · simp [update, update_watcher, newWatchPaths, hloc]
  · simp [update, update_watcher, newWatchPaths, hloc]
  · intro desktop_dir_opt home_dir
    cases desktop_dir_opt <;> rfl

/-- Witness for C8 at a concrete state: the session is adopted, the location
path is watched, and no command is returned. -/
theorem c8_witness :
    (update (fun _ => Except.error 0)
        ⟨[], [], Location.path ["home"], none, none, 0, 0⟩
        (Msg.notify_watcher true)).watch_calls = [WatchCall.watch ["home"]] ∧
    (update (fun _ => Except.error 0)
        ⟨[], [], Location.path ["home"], none, none, 0, 0⟩
        (Msg.notify_watcher true)).cmds = [] :=
  ⟨(c8_adopt_reconcile_no_rescan (fun _ => Except.error 0)
      ⟨[], [], Location.path ["home"], none, none, 0, 0⟩ ["home"] rfl).2.1,
   (c8_adopt_reconcile_no_rescan (fun _ => Except.error 0)
      ⟨[], [], Location.path ["home"], none, none, 0, 0⟩ ["home"] rfl).2.2.1⟩

/-! ## C5 -/

theorem newWatchPaths_nodup (location : Location) : (newWatchPaths location).Nodup := by
  cases location <;> simp [newWatchPaths]

theorem watchCall_unwatch_injective : Function.Injective WatchCall.unwatch := by
  intro a b h
  injection h

theorem watchCall_watch_injective : Function.Injective WatchCall.watch := by
  intro a b h
  injection h

/-- C5: reconciling the watch set acts on exactly the symmetric difference of
the old watched set and the new target set: each old path not in the new set
gets exactly one unwatch call, each new path not in the old set exactly one
watch call, a path in both sets gets neither, and an unchanged target yields
no calls at all. -/
theorem c5_reconcile_symmdiff (app : App) (old_paths : List FsPath) (p : FsPath)
    (hw : app.watcher_opt = some old_paths) (hnd : old_paths.Nodup) :
    (List.count (WatchCall.unwatch p) (update_watcher app).2 =
        if p ∈ old_paths ∧ p ∉ newWatchPaths app.location then 1 else 0) ∧
    (List.count (WatchCall.watch p) (update_watcher app).2 =
        if p ∈ newWatchPaths app.location ∧ p ∉ old_paths then 1 else 0) ∧
    (old_paths = newWatchPaths app.location → (update_watcher app).2 = []) := by
  simp only [update_watcher, hw]
  refine ⟨?_, ?_, ?_⟩
  · rw [List.count_append]
    have hz : List.count (WatchCall.unwatch p)
        (((newWatchPaths app.location).filter
          (fun q => !decide (q ∈ old_paths))).map WatchCall.watch) = 0 := by
      refine List.count_eq_zero_of_not_mem ?_
      simp [List.mem_map]
    rw [hz, Nat.add_zero,
      List.count_map_of_injective _ _ watchCall_unwatch_injective,
      List.count_eq_of_nodup (hnd.filter _)]
    simp [List.mem_filter]
  · rw [List.count_append]
    have hz : List.count (WatchCall.watch p)
        ((old_paths.filter
          (fun q => !decide (q ∈ newWatchPaths app.location))).map WatchCall.unwatch) = 0 := by
      refine List.count_eq_zero_of_not_mem ?_
      simp [List.mem_map]
    rw [hz, Nat.zero_add,
      List.count_map_of_injective _ _ watchCall_watch_injective,
      List.count_eq_of_nodup ((newWatchPaths_nodup app.location).filter _)]
    simp [List.mem_filter]
  · intro heq
    have h1 : old_paths.filter (fun q => !decide (q ∈ newWatchPaths app.location)) = [] := by
      refine List.filter_eq_nil_iff.mpr ?_
      intro q hq
      simp [heq ▸ hq]
    have h2 : (newWatchPaths app.location).filter (fun q => !decide (q ∈ old_paths)) = [] := by
      refine List.filter_eq_nil_iff.mpr ?_
      intro q hq
      rw [heq]
      simp [hq]
    rw [h1, h2]
    rfl

/-- Witness for C5: reconciling from `{/home/user}` to `{/home/user/Desktop}`
issues exactly one `unwatch(/home/user)` and one `watch(/home/user/Desktop)`,
and an unchanged target issues zero calls. -/
theorem c5_witness :
    (List.count (WatchCall.unwatch ["home", "user"])
      (update_watcher ⟨[], [], Location.path ["home", "user", "Desktop"], none,
        some [["home", "user"]], 0, 0⟩).2 = 1) ∧
    (List.count (WatchCall.watch ["home", "user", "Desktop"])
      (update_watcher ⟨[], [], Location.path ["home", "user", "Desktop"], none,
        some [["home", "user"]], 0, 0⟩).2 = 1) ∧
    (update_watcher ⟨[], [], Location.path ["home", "user"], none,
        some [["home", "user"]], 0, 0⟩).2 = [] := by
  refine ⟨?_, ?_, ?_⟩
  · have h := (c5_reconcile_symmdiff
      ⟨[], [], Location.path ["home", "user", "Desktop"], none,
        some [["home", "user"]], 0, 0⟩
      [["home", "user"]] ["home", "user"] rfl (by decide)).1
    simpa using h
  · have h := (c5_reconcile_symmdiff
      ⟨[], [], Location.path ["home", "user", "Desktop"], none,
        some [["home", "user"]], 0, 0⟩
      [["home", "user"]] ["home", "user", "Desktop"] rfl (by decide)).2.1
    simpa using h
  · exact (c5_reconcile_symmdiff
      ⟨[], [], Location.path ["home", "user"], none,
        some [["home", "user"]], 0, 0⟩
      [["home", "user"]] [] rfl (by decide)).2.2 (by decide)

/-! ## C3 and C4: the classifier -/

/-- The `contains_change` flag contributed by one event: true exactly when
the event's kind is neither a metadata-modify nor a data-modify and one of
its paths lies under the current location. -/
theorem classifyEventPaths_flag_iff (fs : FsOracle) (loc : FsPath) (kind : EventKind)
    (paths : List FsPath) (items_opt : Option (List Item)) :
    (classifyEventPaths fs loc kind paths items_opt).2 = true ↔
      ((∀ k, kind ≠ EventKind.modify (ModifyKind.metadata k)) ∧
       (∀ c, kind ≠ EventKind.modify (ModifyKind.data c))) ∧
      ∃ p ∈ paths, pathStartsWith p loc = true := by
  induction paths generalizing items_opt with
  | nil => simp [classifyEventPaths]
  | cons q rest ih =>
    unfold classifyEventPaths
    by_cases hq : pathStartsWith q loc = true
    · rw [if_pos hq]
      cases kind with
      | modify mk =>
        cases mk with
        | metadata k =>
          rw [ih]
          constructor
          · rintro ⟨⟨h1, _⟩, _⟩
            exact absurd rfl (h1 k)
          · rintro ⟨⟨h1, _⟩, _⟩
            exact absurd rfl (h1 k)
        | data c =>
          rw [ih]
          constructor
          · rintro ⟨⟨_, h2⟩, _⟩
            exact absurd rfl (h2 c)
          · rintro ⟨⟨_, h2⟩, _⟩
            exact absurd rfl (h2 c)
        | any =>
          exact iff_of_true rfl
            ⟨⟨(fun _ h => nomatch h), (fun _ h => nomatch h)⟩,
             q, List.mem_cons_self q rest, hq⟩
        | name m =>
          exact iff_of_true rfl
            ⟨⟨(fun _ h => nomatch h), (fun _ h => nomatch h)⟩,
             q, List.mem_cons_self q rest, hq⟩
        | other =>
          exact iff_of_true rfl
            ⟨⟨(fun _ h => nomatch h), (fun _ h => nomatch h)⟩,
             q, List.mem_cons_self q rest, hq⟩
      | any =>
        exact iff_of_true rfl
          ⟨⟨(fun _ h => nomatch h), (fun _ h => nomatch h)⟩,
           q, List.mem_cons_self q rest, hq⟩
      | access a =>
        exact iff_of_true rfl
          ⟨⟨(fun _ h => nomatch h), (fun _ h => nomatch h)⟩,
           q, List.mem_cons_self q rest, hq⟩
      | create c =>
        exact iff_of_true rfl
          ⟨⟨(fun _ h => nomatch h), (fun _ h => nomatch h)⟩,
           q, List.mem_cons_self q rest, hq⟩
      | remove r =>
        exact iff_of_true rfl
          ⟨⟨(fun _ h => nomatch h), (fun _ h => nomatch h)⟩,
           q, List.mem_cons_self q rest, hq⟩
      | other =>
        exact iff_of_true rfl
          ⟨⟨(fun _ h => nomatch h), (fun _ h => nomatch h)⟩,
           q, List.mem_cons_self q rest, hq⟩
    · rw [if_neg hq, ih]
      simp [hq]

/-- The whole-batch `contains_change` flag: true exactly when some event of
the batch has a forcing (non-metadata, non-data-modify) kind and a path under
the location. -/
theorem classifyBatch_flag_iff (fs : FsOracle) (loc : FsPath) (events : List Event)
    (items_opt : Option (List Item)) :
    (classifyBatch fs loc events items_opt).2 = true ↔
      ∃ e ∈ events,
        ((∀ k, e.kind ≠ EventKind.modify (ModifyKind.metadata k)) ∧
         (∀ c, e.kind ≠ EventKind.modify (ModifyKind.data c))) ∧
        ∃ p ∈ e.paths, pathStartsWith p loc = true := by
  induction events generalizing items_opt with
  | nil => simp [classifyBatch]
  | cons e rest ih =>
    simp only [classifyBatch, Bool.or_eq_true, ih, classifyEventPaths_flag_iff,
      List.exists_mem_cons_iff]

/-- Splitting a batch: the item collection threads through both halves and
the `contains_change` flags are or-ed — later events are classified and
applied no matter what earlier events contributed. -/
theorem classifyBatch_append (fs : FsOracle) (loc : FsPath) (es1 es2 : List Event)
    (items_opt : Option (List Item)) :
    classifyBatch fs loc (es1 ++ es2) items_opt =
      ((classifyBatch fs loc es2 (classifyBatch fs loc es1 items_opt).1).1,
       (classifyBatch fs loc es1 items_opt).2 ||
         (classifyBatch fs loc es2 (classifyBatch fs loc es1 items_opt).1).2) := by
  induction es1 generalizing items_opt with
  | nil => simp [classifyBatch]
  | cons e rest ih =>
      simp only [List.cons_append, classifyBatch, List.append_eq, ih, Bool.or_assoc]

/-- C3 counterexample: a batch holding a create event under the location
followed by a data-modify event on a listed item yields `full_rescan = true`
but does not short-circuit — the later event's in-place patch is still
applied (the item's metadata changes from stamp 0 to the re-read stamp 1). -/
theorem c3_counterexample :
    let fs : FsOracle := fun _ => Except.ok ⟨1⟩
    let loc : FsPath := ["tmp", "d"]
    let itemA : Item := ⟨some ["tmp", "d", "a"], ItemMetadata.path ⟨0⟩ 0, none⟩
    let batch : List Event :=
      [⟨EventKind.create SubKind.any, [["tmp", "d", "x"]]⟩,
       ⟨EventKind.modify (ModifyKind.data SubKind.any), [["tmp", "d", "a"]]⟩]
    (classifyBatch fs loc batch (some [itemA])).2 = true ∧
    (classifyBatch fs loc batch (some [itemA])).1 ≠ some [itemA] ∧
    (classifyBatch fs loc batch (some [itemA])).1 =
      some [⟨some ["tmp", "d", "a"], ItemMetadata.path ⟨1⟩ 0, none⟩] := by
  decide

/-- C3 (amended): a batch containing an event under the current location
whose kind is neither metadata-modify nor data-modify yields
`full_rescan = true` for the whole batch (and only such batches do), but
per-item classification is not short-circuited: an event appended after the
batch is still classified and its in-place patches applied. -/
theorem c3_full_rescan_not_short_circuit (fs : FsOracle) (loc : FsPath)
    (events : List Event) (items_opt : Option (List Item)) (e : Event) :
    ((classifyBatch fs loc events items_opt).2 = true ↔
      ∃ ev ∈ events,
        ((∀ k, ev.kind ≠ EventKind.modify (ModifyKind.metadata k)) ∧
         (∀ c, ev.kind ≠ EventKind.modify (ModifyKind.data c))) ∧
        ∃ p ∈ ev.paths, pathStartsWith p loc = true) ∧
    (classifyBatch fs loc (events ++ [e]) items_opt).1 =
      (classifyEventPaths fs loc e.kind e.paths
        (classifyBatch fs loc events items_opt).1).1 := by
  constructor
  · exact classifyBatch_flag_iff fs loc events items_opt
  · rw [classifyBatch_append]
    rfl

/-- Witness for C3 at a concrete batch: a single create event under the
location makes the whole batch require a full rescan. -/
theorem c3_witness :
    (classifyBatch (fun _ => Except.ok ⟨1⟩) ["tmp", "d"]
      [⟨EventKind.create SubKind.any, [["tmp", "d", "x"]]⟩] (some [])).2 = true :=
  (c3_full_rescan_not_short_circuit (fun _ => Except.ok ⟨1⟩) ["tmp", "d"]
      [⟨EventKind.create SubKind.any, [["tmp", "d", "x"]]⟩] (some [])
      ⟨EventKind.any, []⟩).1.mpr
    ⟨⟨EventKind.create SubKind.any, [["tmp", "d", "x"]]⟩,
     List.mem_cons_self _ _,
     ⟨(fun _ h => nomatch h), (fun _ h => nomatch h)⟩,
     ["tmp", "d", "x"], List.mem_cons_self _ _, rfl⟩

/-- An access event never touches the item collection: its per-path loop
either skips the path or hits the forcing branch, which leaves items as they
are. -/
theorem classifyEventPaths_access_fst (fs : FsOracle) (loc : FsPath) (a : SubKind)
    (paths : List FsPath) (items_opt : Option (List Item)) :
    (classifyEventPaths fs loc (EventKind.access a) paths items_opt).1 = items_opt := by
  induction paths with
  | nil => rfl
  | cons q rest ih =>
    unfold classifyEventPaths
    by_cases hq : pathStartsWith q loc = true
    · rw [if_pos hq]
    · rw [if_neg hq]
      exact ih

/-- A batch of only access events leaves the item collection unchanged. -/
theorem classifyBatch_access_fst (fs : FsOracle) (loc : FsPath) :
    ∀ (events : List Event), (∀ e ∈ events, ∃ a, e.kind = EventKind.access a) →
      ∀ items_opt, (classifyBatch fs loc events items_opt).1 = items_opt
  | [], _, _ => rfl
  | e :: rest, hacc, items_opt => by
      obtain ⟨a, ha⟩ := hacc e (List.mem_cons_self e rest)
      have h1 : (classifyEventPaths fs loc e.kind e.paths items_opt).1 = items_opt := by
        rw [ha]
        exact classifyEventPaths_access_fst fs loc a e.paths items_opt
      calc (classifyBatch fs loc (e :: rest) items_opt).1
          = (classifyBatch fs loc rest
              (classifyEventPaths fs loc e.kind e.paths items_opt).1).1 := rfl
        _ = (classifyEventPaths fs loc e.kind e.paths items_opt).1 :=
            classifyBatch_access_fst fs loc rest
              (fun e' he' => hacc e' (List.mem_cons_of_mem e he'))
              (classifyEventPaths fs loc e.kind e.paths items_opt).1
        _ = items_opt := h1

/-- C4 counterexample: a batch containing only one access event under the
location yields `full_rescan = true` — the handler's catch-all branch treats
access like any unrecognized kind — and the update actually issues a rescan
command. -/
theorem c4_counterexample :
    let fs : FsOracle := fun _ => Except.error 0
    let loc : FsPath := ["tmp", "d"]
    let batch : List Event := [⟨EventKind.access SubKind.any, [["tmp", "d", "a"]]⟩]
    let app : App := ⟨[], [], Location.path loc, some [], none, 0, 0⟩
    (classifyBatch fs loc batch (some [])).2 = true ∧
    (update fs app (Msg.notify_events batch)).cmds = [Cmd.rescan (Location.path loc)] := by
  decide

/-- C4 (amended): a batch containing only access-kind events yields no
patches (the item collection is untouched), but `full_rescan` is true exactly
when some access event has a path under the current location — the classifier
is not independently safe against access events. -/
theorem c4_access_only_no_patch (fs : FsOracle) (loc : FsPath) (events : List Event)
    (items_opt : Option (List Item))
    (hacc : ∀ e ∈ events, ∃ a, e.kind = EventKind.access a) :
    (classifyBatch fs loc events items_opt).1 = items_opt ∧
    ((classifyBatch fs loc events items_opt).2 = true ↔
      ∃ e ∈ events, ∃ p ∈ e.paths, pathStartsWith p loc = true) := by
  refine ⟨classifyBatch_access_fst fs loc events hacc items_opt, ?_⟩
  rw [classifyBatch_flag_iff]
  constructor
  · rintro ⟨e, he, _, hp⟩
    exact ⟨e, he, hp⟩
  · rintro ⟨e, he, hp⟩
    obtain ⟨a, ha⟩ := hacc e he
    refine ⟨e, he, ⟨?_, ?_⟩, hp⟩
    · intro k h
      rw [ha] at h
      exact nomatch h
    · intro c h
      rw [ha] at h
      exact nomatch h

/-- Witness for C4 at a concrete access-only batch: no patch is applied and
the flag is set because the path lies under the location. -/
theorem c4_witness :
    (classifyBatch (fun _ => Except.error 0) ["tmp", "d"]
        [⟨EventKind.access SubKind.any, [["tmp", "d", "a"]]⟩] (some [])).1 = some [] ∧
    (classifyBatch (fun _ => Except.error 0) ["tmp", "d"]
        [⟨EventKind.access SubKind.any, [["tmp", "d", "a"]]⟩] (some [])).2 = true := by
  have h := c4_access_only_no_patch (fun _ => Except.error 0) ["tmp", "d"]
    [⟨EventKind.access SubKind.any, [["tmp", "d", "a"]]⟩] (some [])
    (fun e he => by
      rw [List.mem_singleton] at he
      exact ⟨SubKind.any, by rw [he]⟩)
  exact ⟨h.1, h.2.mpr ⟨⟨EventKind.access SubKind.any, [["tmp", "d", "a"]]⟩,
    List.mem_cons_self _ _, ["tmp", "d", "a"], List.mem_cons_self _ _, rfl⟩⟩

/-! ## C2: surface accounting -/

theorem alLookup_eq_none_iff [DecidableEq α] (m : List (α × β)) (k : α) :
    alLookup m k = none ↔ k ∉ m.map Prod.fst := by
  induction m with
  | nil => simp [alLookup]
  | cons kv rest ih =>
    rw [List.map_cons, List.mem_cons, not_or, alLookup]
    by_cases h : kv.1 = k
    · simp [h]
    · rw [if_neg h, ih]
      constructor
      · intro hn
        exact ⟨fun hk => h hk.symm, hn⟩
      · intro hn
        exact hn.2

theorem alLookup_some_perm [DecidableEq α] (m : List (α × β)) (k : α) (v : β)
    (h : alLookup m k = some v) : m.Perm ((k, v) :: alRemove m k) := by
  induction m with
  | nil => simp [alLookup] at h
  | cons kv rest ih =>
    obtain ⟨a, b⟩ := kv
    by_cases hk : a = k
    · rw [alLookup, if_pos hk] at h
      rw [alRemove, if_pos hk]
      injection h with h
      have hb : b = v := h
      rw [hk, hb]
    · rw [alLookup, if_neg hk] at h
      rw [alRemove, if_neg hk]
      exact ((ih h).cons (a, b)).trans (List.Perm.swap (k, v) (a, b) (alRemove rest k))

theorem alInsert_of_lookup_none [DecidableEq α] (m : List (α × β)) (k : α) (v : β)
    (h : alLookup m k = none) : alInsert m k v = (none, (k, v) :: m) := by
  rw [alInsert, h]

theorem applyCmdsLive_append (live : List SurfaceId) (c1 c2 : List Cmd) :
    applyCmdsLive live (c1 ++ c2) = applyCmdsLive (applyCmdsLive live c1) c2 := by
  induction c1 generalizing live with
  | nil => rfl
  | cons c rest ih => rw [List.cons_append, applyCmdsLive, applyCmdsLive, ih]

/-- Invariant carried through a run of output notifications: the surfaces
alive after executing the issued commands are (a permutation of) the values
of the output-to-surface map, and the attached outputs are its keys —
provided no attach arrives for an output already registered. -/
theorem runOutputEvents_perm (fs : FsOracle) :
    ∀ (events : List (OutputEv × WlOutput)) (app : App) (live att : List Nat),
      noDupAttach fs app events = true →
      live.Perm (app.surface_ids.map Prod.snd) →
      att.Perm (app.surface_ids.map Prod.fst) →
      (applyCmdsLive live (runOutputEvents fs app events).2).Perm
          ((runOutputEvents fs app events).1.surface_ids.map Prod.snd) ∧
      (attachedFrom att events).Perm
          ((runOutputEvents fs app events).1.surface_ids.map Prod.fst) := by
  intro events
  induction events with
  | nil => exact fun app live att _ h1 h2 => ⟨h1, h2⟩
  | cons e rest ih =>
    obtain ⟨ev, output⟩ := e
    intro app live att hnd h1 h2
    cases ev with
    | created info_opt =>
      simp only [noDupAttach, Bool.and_eq_true] at hnd
      obtain ⟨hhead, htail⟩ := hnd
      have hnone : alLookup app.surface_ids output = none :=
        Option.isNone_iff_eq_none.mp hhead
      have hnotmem : output ∉ app.surface_ids.map Prod.fst :=
        (alLookup_eq_none_iff app.surface_ids output).mp hnone
      have hnotatt : output ∉ att := fun hmem => hnotmem (h2.mem_iff.mp hmem)
      have happ : (update fs app
          (Msg.output_event (OutputEv.created info_opt) output)).app.surface_ids
            = (output, app.next_surface_id) :: app.surface_ids := by
        simp only [update, alInsert_of_lookup_none _ _ _ hnone]
      simp only [runOutputEvents, attachedFrom]
      rw [show (update fs app
            (Msg.output_event (OutputEv.created info_opt) output)).cmds
          = [Cmd.get_layer_surface app.next_surface_id output] from rfl,
        applyCmdsLive_append]
      refine ih _ _ _ htail ?_ ?_
      · rw [happ]
        exact (List.perm_append_singleton _ _).trans (h1.cons _)
      · rw [happ, List.map_cons]
        simp only [attachStep]
        rw [if_neg hnotatt]
        exact (List.perm_append_singleton _ _).trans (h2.cons _)
    | removed =>
      simp only [noDupAttach, Bool.true_and] at hnd
      cases hcase : alLookup app.surface_ids output with
      | some surface_id =>
        have hperm := alLookup_some_perm app.surface_ids output surface_id hcase
        have happ : (update fs app
            (Msg.output_event OutputEv.removed output)).app.surface_ids
              = alRemove app.surface_ids output := by
          simp only [update, hcase]
        have hcmds : (update fs app
            (Msg.output_event OutputEv.removed output)).cmds
              = [Cmd.destroy_layer_surface surface_id] := by
          simp only [update, hcase]
        simp only [runOutputEvents, attachedFrom]
        rw [hcmds, applyCmdsLive_append]
        refine ih _ _ _ hnd ?_ ?_
        · rw [happ]
          have hv := (h1.trans (hperm.map Prod.snd)).erase surface_id
          simp only [List.map_cons] at hv
          rw [List.erase_cons_head] at hv
          exact hv
        · rw [happ]
          have hk := (h2.trans (hperm.map Prod.fst)).erase output
          simp only [List.map_cons] at hk
          rw [List.erase_cons_head] at hk
          simp only [attachStep]
          exact hk
      | none =>
        have happ : (update fs app
            (Msg.output_event OutputEv.removed output)).app = app := by
          simp only [update, hcase]
        have hnotatt : output ∉ att := fun hmem =>
          (alLookup_eq_none_iff app.surface_ids output).mp hcase (h2.mem_iff.mp hmem)
        simp only [runOutputEvents, attachedFrom]
        rw [show (update fs app
              (Msg.output_event OutputEv.removed output)).cmds = [] by
            simp only [update, hcase],
          applyCmdsLive_append, happ]
        refine ih _ _ _ (happ ▸ hnd) h1 ?_
        simp only [attachStep]
        rw [List.erase_of_not_mem hnotatt]
        exact h2
    | info_update info =>
      simp only [noDupAttach, Bool.true_and] at hnd
      have happ : (update fs app
          (Msg.output_event (OutputEv.info_update info) output)).app = app := rfl
      simp only [runOutputEvents, attachedFrom]
      rw [show (update fs app
            (Msg.output_event (OutputEv.info_update info) output)).cmds = [] from rfl,
        applyCmdsLive_append, happ]
      refine ih _ _ _ (happ ▸ hnd) h1 ?_
      simp only [attachStep]
      exact h2

/-- C2 counterexample: delivering two attach notifications for the same
output (starting from no surfaces) creates two live surfaces for one attached
output, and the second attach replaces the stored mapping with the fresh
surface id 1 instead of retaining surface id 0 — the first surface is
leaked. -/
theorem c2_counterexample :
    let fs : FsOracle := fun _ => Except.error 0
    let app0 : App := ⟨[], [], Location.path ["h"], none, none, 0, 0⟩
    let events : List (OutputEv × WlOutput) :=
      [(OutputEv.created none, 0), (OutputEv.created none, 0)]
    (liveSurfaces (runOutputEvents fs app0 events).2).length = 2 ∧
    (attachedOutputs events).length = 1 ∧
    alLookup (runOutputEvents fs app0 events).1.surface_ids 0 = some 1 := by
  decide

/-- C2 (amended): provided no attach notification arrives for an output that
is already registered, the number of live surfaces after any attach/detach
sequence equals the number of currently-attached outputs; a duplicate attach
instead allocates a fresh surface and replaces the stored mapping, leaking
the previous surface. -/
theorem c2_live_surfaces_eq_attached (fs : FsOracle) (app : App)
    (events : List (OutputEv × WlOutput))
    (hempty : app.surface_ids = [])
    (hnd : noDupAttach fs app events = true) :
    (liveSurfaces (runOutputEvents fs app events).2).length
      = (attachedOutputs events).length := by
  have h := runOutputEvents_perm fs events app [] [] hnd
    (by rw [hempty]; exact List.Perm.refl _)
    (by rw [hempty]; exact List.Perm.refl _)
  rw [liveSurfaces, attachedOutputs, h.1.length_eq, h.2.length_eq,
    List.length_map, List.length_map]

/-- Witness for C2 at a concrete attach/detach/attach sequence with no
duplicate attach: one live surface, one attached output. -/
theorem c2_witness :
    (liveSurfaces (runOutputEvents (fun _ => Except.error 0)
        ⟨[], [], Location.path ["h"], none, none, 0, 0⟩
        [(OutputEv.created none, 0), (OutputEv.removed, 0),
         (OutputEv.created none, 1)]).2).length
      = (attachedOutputs
          [(OutputEv.created none, 0), (OutputEv.removed, 0),
           (OutputEv.created none, 1)]).length :=
  c2_live_surfaces_eq_attached (fun _ => Except.error 0)
    ⟨[], [], Location.path ["h"], none, none, 0, 0⟩
    [(OutputEv.created none, 0), (OutputEv.removed, 0), (OutputEv.created none, 1)]
    rfl (by decide)

end Desktop
